import Mathlib

/-!
Shallow embedding of the open-hypergraphs-dot renderer (src/src/lib.rs and
src/src/options.rs) together with theorems about its behaviour.

The embedding mirrors the Rust source: the dot_structures data types are
modelled with exactly the constructors the code uses, Rust strings are Lean
strings (all generated text is ASCII, so byte-based operations such as
String::truncate coincide with character-based ones), Vec is List, usize is
Nat, and each imperative accumulation loop becomes a structurally recursive
function carrying the loop counter.
-/

namespace OpenHypergraphsDot

/-- dot_structures Id; the code only ever constructs the Plain variant. -/
inductive Id where
  | Plain (s : String)
deriving DecidableEq

/-- dot_structures Attribute, a key/value pair of Ids. -/
structure Attribute where
  key : Id
  value : Id
deriving DecidableEq

/-- dot_structures Port; the code always passes None for the first component
and Some of a port name for the second. -/
structure Port where
  fst : Option Id
  snd : Option String
deriving DecidableEq

/-- dot_structures NodeId: a vertex name plus an optional port. -/
structure NodeId where
  id : Id
  port : Option Port
deriving DecidableEq

/-- dot_structures Node: a vertex declaration with its attribute list. -/
structure Node where
  id : NodeId
  attributes : List Attribute
deriving DecidableEq

/-- dot_structures Vertex; the code only uses the node variant. -/
inductive Vertex where
  | N (n : NodeId)
deriving DecidableEq

/-- dot_structures EdgeTy; the code only builds pairwise edges. -/
inductive EdgeTy where
  | Pair (a : Vertex) (b : Vertex)
deriving DecidableEq

/-- dot_structures Edge: an edge with its attribute list. -/
structure Edge where
  ty : EdgeTy
  attributes : List Attribute
deriving DecidableEq

/-- dot_structures Stmt; the code emits node, attribute and edge statements. -/
inductive Stmt where
  | Node (n : Node)
  | Attribute (a : Attribute)
  | Edge (e : Edge)
deriving DecidableEq

/-- dot_structures Graph; the code only builds the DiGraph variant. -/
inductive Graph where
  | DiGraph (id : Id) (strict : Bool) (stmts : List Stmt)
deriving DecidableEq

/-- Graph::add_stmt appends one statement to the statement list. -/
def Graph.add_stmt : Graph → Stmt → Graph
  | Graph.DiGraph i s st, x => Graph.DiGraph i s (st ++ [x])

/-- Projection to the statement list of a graph. -/
def Graph.stmts : Graph → List Stmt
  | Graph.DiGraph _ _ st => st

/-- open_hypergraphs lax Hyperedge: ordered source and target node indices. -/
structure Hyperedge where
  sources : List Nat
  targets : List Nat
deriving DecidableEq

/-- open_hypergraphs lax Hypergraph: node labels, edge labels, adjacency,
and the quotient as two parallel index sequences. -/
structure Hypergraph (O A : Type) where
  nodes : List O
  edges : List A
  adjacency : List Hyperedge
  quotient : List Nat × List Nat

/-- open_hypergraphs lax OpenHypergraph: a hypergraph with interface
source and target node sequences. -/
structure OpenHypergraph (O A : Type) where
  hypergraph : Hypergraph O A
  sources : List Nat
  targets : List Nat

/-- options.rs Orientation. -/
inductive Orientation where
  | LR
  | TB
deriving DecidableEq

/-- The Display impl of Orientation, used for the rankdir attribute. -/
def Orientation.toString : Orientation → String
  | Orientation.LR => "LR"
  | Orientation.TB => "TB"

/-- options.rs Theme: colour strings plus an orientation field. -/
structure Theme where
  bgcolor : String
  fontcolor : String
  color : String
  orientation : Orientation

/-- options.rs light_theme preset. -/
def light_theme : Theme :=
  { bgcolor := "white", fontcolor := "black", color := "black",
    orientation := Orientation.LR }

/-- options.rs dark_theme preset (also the Default). -/
def dark_theme : Theme :=
  { bgcolor := "#4a4a4a", fontcolor := "white", color := "white",
    orientation := Orientation.LR }

/-- options.rs Options: orientation, theme and the two label formatters. -/
structure Options (O A : Type) where
  orientation : Orientation
  theme : Theme
  node_label : O → String
  edge_label : A → String

/-- One arm of the match inside escape_dot_label: the characters each input
character expands to (the Rust code produces the same expansions as
one-or-two character strings and concatenates them). -/
def escape_char (c : Char) : List Char :=
  match c with
  | '\\' => ['\\', '\\']
  | '"' => ['\\', '"']
  | '\x7b' => ['\\', '\x7b']
  | '\x7d' => ['\\', '\x7d']
  | '|' => ['\\', '|']
  | '<' => ['\\', '<']
  | '>' => ['\\', '>']
  | c => [c]

/-- lib.rs escape_dot_label: escape every structurally significant character,
concatenating the per-character expansions. -/
def escape_dot_label (s : String) : String :=
  String.mk (List.flatten (s.data.map escape_char))

/-- The port-cell accumulation loop shared by generate_edge_stmts and
generate_interface_stmts: after n iterations the buffer holds one
"<pfx k> | " block per k below n, in order. -/
def ports_loop (pfx : String) : Nat → String
  | 0 => ""
  | n + 1 => ports_loop pfx n ++ "<" ++ pfx ++ Nat.repr n ++ "> | "

/-- The port-cell string: run the loop, then (as the Rust code does with
String::truncate) remove the trailing three characters when non-empty. -/
def port_cells (pfx : String) (n : Nat) : String :=
  let s := ports_loop pfx n
  if s.data.isEmpty then s else String.mk (s.data.take (s.length - 3))

/-- The record-label construction of generate_edge_stmts, including the
three-way degenerate-case conditional on empty port cells. -/
def record_label (label : String) (nsrc ntgt : Nat) : String :=
  let source_ports := port_cells ("s_") nsrc
  let target_ports := port_cells ("t_") ntgt
  if source_ports.data.isEmpty && target_ports.data.isEmpty then
    "\"" ++ label ++ "\""
  else if source_ports.data.isEmpty then
    "\"\x7b " ++ label ++ " | \x7b " ++ target_ports ++ " \x7d \x7d\""
  else if target_ports.data.isEmpty then
    "\"\x7b \x7b " ++ source_ports ++ " \x7d | " ++ label ++ " \x7d\""
  else
    "\"\x7b \x7b " ++ source_ports ++ " \x7d | " ++ label ++ " | \x7b " ++
      target_ports ++ " \x7d \x7d\""

/-- A Rust loop of the shape `for (j, x) in xs.iter().enumerate()`, with the
counter starting at j. -/
def enumerate_map (f : Nat → α → β) : Nat → List α → List β
  | _, [] => []
  | j, x :: rest => f j x :: enumerate_map f (j + 1) rest

/-- The statement generate_node_stmts emits for node index i with (already
escaped) label text. -/
def node_stmt (i : Nat) (label : String) : Stmt :=
  Stmt.Node
    { id := { id := Id.Plain ("n_" ++ Nat.repr i), port := none },
      attributes :=
        [ { key := Id.Plain ("shape"), value := Id.Plain ("point") },
          { key := Id.Plain ("xlabel"),
            value := Id.Plain ("\"" ++ label ++ "\"") } ] }

/-- lib.rs generate_node_stmts: one point vertex per node, in index order. -/
def generate_node_stmts (g : OpenHypergraph O A) (opts : Options O A) :
    List Stmt :=
  enumerate_map (fun i o => node_stmt i (escape_dot_label (opts.node_label o)))
    0 g.hypergraph.nodes

/-- The statement generate_edge_stmts emits for hyperedge index i. -/
def edge_stmt (i : Nat) (label : String) (he : Hyperedge) : Stmt :=
  Stmt.Node
    { id := { id := Id.Plain ("e_" ++ Nat.repr i), port := none },
      attributes :=
        [ { key := Id.Plain ("label"),
            value := Id.Plain
              (record_label label he.sources.length he.targets.length) },
          { key := Id.Plain ("shape"), value := Id.Plain ("record") } ] }

/-- The loop of generate_edge_stmts: index i walks edges and adjacency in
lockstep (the Rust code indexes both by i; a length mismatch is a
precondition violation, spec section 7, on which the Rust code panics and
this model stops). -/
def edge_stmts_loop (el : A → String) : Nat → List A → List Hyperedge →
    List Stmt
  | i, a :: arest, he :: hrest =>
      edge_stmt i (escape_dot_label (el a)) he ::
        edge_stmts_loop el (i + 1) arest hrest
  | _, _, _ => []

/-- lib.rs generate_edge_stmts: one record vertex per hyperedge. -/
def generate_edge_stmts (g : OpenHypergraph O A) (opts : Options O A) :
    List Stmt :=
  edge_stmts_loop opts.edge_label 0 g.hypergraph.edges g.hypergraph.adjacency

/-- The wiring statement from source node n to port s_j of hyperedge i. -/
def source_connection_stmt (i j n : Nat) : Stmt :=
  Stmt.Edge
    { ty := EdgeTy.Pair
        (Vertex.N { id := Id.Plain ("n_" ++ Nat.repr n), port := none })
        (Vertex.N { id := Id.Plain ("e_" ++ Nat.repr i),
                    port := some { fst := none,
                                   snd := some ("s_" ++ Nat.repr j) } }),
      attributes := [] }

/-- The wiring statement from port t_j of hyperedge i to target node n. -/
def target_connection_stmt (i j n : Nat) : Stmt :=
  Stmt.Edge
    { ty := EdgeTy.Pair
        (Vertex.N { id := Id.Plain ("e_" ++ Nat.repr i),
                    port := some { fst := none,
                                   snd := some ("t_" ++ Nat.repr j) } })
        (Vertex.N { id := Id.Plain ("n_" ++ Nat.repr n), port := none }),
      attributes := [] }

/-- The outer loop of generate_connection_stmts over the adjacency list. -/
def conn_stmts_loop : Nat → List Hyperedge → List Stmt
  | _, [] => []
  | i, he :: rest =>
      enumerate_map (source_connection_stmt i) 0 he.sources ++
        enumerate_map (target_connection_stmt i) 0 he.targets ++
        conn_stmts_loop (i + 1) rest

/-- lib.rs generate_connection_stmts: node-to-port wiring, per hyperedge,
per slot, in slot order, with no deduplication. -/
def generate_connection_stmts (g : OpenHypergraph O A) : List Stmt :=
  conn_stmts_loop 0 g.hypergraph.adjacency

/-- The invisible source-interface record vertex with n ports. -/
def sources_node_stmt (n : Nat) : Stmt :=
  Stmt.Node
    { id := { id := Id.Plain ("sources"), port := none },
      attributes :=
        [ { key := Id.Plain ("label"),
            value := Id.Plain
              ("\"\x7b \x7b\x7d | \x7b " ++ port_cells ("p_") n ++
                " \x7d \x7d\"") },
          { key := Id.Plain ("shape"), value := Id.Plain ("record") },
          { key := Id.Plain ("style"), value := Id.Plain ("invisible") },
          { key := Id.Plain ("rank"), value := Id.Plain ("source") } ] }

/-- The dashed connection from port p_i of the sources vertex to node n. -/
def source_interface_edge (i n : Nat) : Stmt :=
  Stmt.Edge
    { ty := EdgeTy.Pair
        (Vertex.N { id := Id.Plain ("sources"),
                    port := some { fst := none,
                                   snd := some ("p_" ++ Nat.repr i) } })
        (Vertex.N { id := Id.Plain ("n_" ++ Nat.repr n), port := none }),
      attributes :=
        [ { key := Id.Plain ("style"), value := Id.Plain ("dashed") } ] }

/-- The invisible target-interface record vertex with n ports. -/
def targets_node_stmt (n : Nat) : Stmt :=
  Stmt.Node
    { id := { id := Id.Plain ("targets"), port := none },
      attributes :=
        [ { key := Id.Plain ("label"),
            value := Id.Plain
              ("\"\x7b \x7b " ++ port_cells ("p_") n ++
                " \x7d | \x7b\x7d \x7d\"") },
          { key := Id.Plain ("shape"), value := Id.Plain ("record") },
          { key := Id.Plain ("style"), value := Id.Plain ("invisible") },
          { key := Id.Plain ("rank"), value := Id.Plain ("sink") } ] }

/-- The dashed connection from node n to port p_i of the targets vertex. -/
def target_interface_edge (i n : Nat) : Stmt :=
  Stmt.Edge
    { ty := EdgeTy.Pair
        (Vertex.N { id := Id.Plain ("n_" ++ Nat.repr n), port := none })
        (Vertex.N { id := Id.Plain ("targets"),
                    port := some { fst := none,
                                   snd := some ("p_" ++ Nat.repr i) } }),
      attributes :=
        [ { key := Id.Plain ("style"), value := Id.Plain ("dashed") } ] }

/-- lib.rs generate_interface_stmts: the sources block when the interface
source sequence is non-empty, then the targets block likewise. -/
def generate_interface_stmts (g : OpenHypergraph O A) : List Stmt :=
  (if g.sources.isEmpty then []
   else sources_node_stmt g.sources.length ::
     enumerate_map source_interface_edge 0 g.sources) ++
  (if g.targets.isEmpty then []
   else targets_node_stmt g.targets.length ::
     enumerate_map target_interface_edge 0 g.targets)

/-- The dotted, direction-suppressed connection generate_quotient_stmts
emits for the quotient pair (l, r), in the input orientation. -/
def quotient_edge_stmt (l r : Nat) : Stmt :=
  Stmt.Edge
    { ty := EdgeTy.Pair
        (Vertex.N { id := Id.Plain ("n_" ++ Nat.repr l), port := none })
        (Vertex.N { id := Id.Plain ("n_" ++ Nat.repr r), port := none }),
      attributes :=
        [ { key := Id.Plain ("style"), value := Id.Plain ("dotted") },
          { key := Id.Plain ("dir"), value := Id.Plain ("none") } ] }

/-- The canonical (min, max) key generate_quotient_stmts uses for
deduplication. -/
def canonical_pair (p : Nat × Nat) : Nat × Nat :=
  if p.1 < p.2 then p else (p.2, p.1)

/-- The loop of generate_quotient_stmts: the seen list models the HashMap
of already-inserted canonical keys (insert returned None exactly when the
key was absent). -/
def quotient_loop : List (Nat × Nat) → List (Nat × Nat) → List Stmt
  | [], _ => []
  | p :: rest, seen =>
      let pair_key := canonical_pair p
      if pair_key ∈ seen then quotient_loop rest seen
      else quotient_edge_stmt p.1 p.2 :: quotient_loop rest (pair_key :: seen)

/-- lib.rs generate_quotient_stmts: zip the two parallel quotient sequences
and emit one dotted connection per not-yet-seen canonical pair. -/
def generate_quotient_stmts (g : OpenHypergraph O A) : List Stmt :=
  quotient_loop (g.hypergraph.quotient.1.zip g.hypergraph.quotient.2) []

/-- The default-node-attributes preamble statement. -/
def default_node_attrs_stmt (theme : Theme) : Stmt :=
  Stmt.Node
    { id := { id := Id.Plain ("node"), port := none },
      attributes :=
        [ { key := Id.Plain ("shape"), value := Id.Plain ("record") },
          { key := Id.Plain ("style"), value := Id.Plain ("rounded") },
          { key := Id.Plain ("fontcolor"),
            value := Id.Plain ("\"" ++ theme.fontcolor ++ "\"") },
          { key := Id.Plain ("color"),
            value := Id.Plain ("\"" ++ theme.color ++ "\"") } ] }

/-- The default-edge-attributes preamble statement. -/
def default_edge_attrs_stmt (theme : Theme) : Stmt :=
  Stmt.Node
    { id := { id := Id.Plain ("edge"), port := none },
      attributes :=
        [ { key := Id.Plain ("fontcolor"),
            value := Id.Plain ("\"" ++ theme.fontcolor ++ "\"") },
          { key := Id.Plain ("color"),
            value := Id.Plain ("\"" ++ theme.color ++ "\"") },
          { key := Id.Plain ("arrowhead"), value := Id.Plain ("none") } ] }

/-- lib.rs generate_dot_with: build the directed graph and append the
preamble, node, hyperedge, interface, wiring and quotient statements, one
add_stmt at a time in the source order. -/
def generate_dot_with (g : OpenHypergraph O A) (opts : Options O A) : Graph :=
  let theme := opts.theme
  let dot_graph := Graph.DiGraph (Id.Plain ("G")) false []
  let dot_graph := dot_graph.add_stmt
    (Stmt.Attribute { key := Id.Plain ("rankdir"),
                      value := Id.Plain (opts.orientation.toString) })
  let dot_graph := dot_graph.add_stmt
    (Stmt.Attribute { key := Id.Plain ("bgcolor"),
                      value := Id.Plain ("\"" ++ theme.bgcolor ++ "\"") })
  let dot_graph := dot_graph.add_stmt (default_node_attrs_stmt theme)
  let dot_graph := dot_graph.add_stmt (default_edge_attrs_stmt theme)
  let dot_graph := (generate_node_stmts g opts).foldl Graph.add_stmt dot_graph
  let dot_graph := (generate_edge_stmts g opts).foldl Graph.add_stmt dot_graph
  let dot_graph :=
    (generate_interface_stmts g).foldl Graph.add_stmt dot_graph
  let dot_graph :=
    (generate_connection_stmts g).foldl Graph.add_stmt dot_graph
  let dot_graph := (generate_quotient_stmts g).foldl Graph.add_stmt dot_graph
  dot_graph

/-! Helper lemmas shared by the claim theorems. -/

theorem enumerate_map_getElem? (f : Nat → α → β) :
    ∀ (j : Nat) (l : List α) (k : Nat),
      (enumerate_map f j l)[k]? = l[k]?.map (f (j + k)) := by
  intro j l
  induction l generalizing j with
  | nil => intro k; simp [enumerate_map]
  | cons x rest ih =>
    intro k
    cases k with
    | zero => simp [enumerate_map]
    | succ k =>
      simp only [enumerate_map, List.getElem?_cons_succ]
      rw [ih (j + 1) k]
      have h : j + 1 + k = j + (k + 1) := by omega
      rw [h]

theorem enumerate_map_length (f : Nat → α → β) :
    ∀ (j : Nat) (l : List α), (enumerate_map f j l).length = l.length := by
  intro j l
  induction l generalizing j with
  | nil => rfl
  | cons x rest ih => simp [enumerate_map, ih]

/-- The text of one named port cell. -/
def port_block (pfx : String) (n : Nat) : String :=
  "<" ++ pfx ++ Nat.repr n ++ ">"

theorem ports_loop_succ (pfx : String) (n : Nat) :
    ports_loop pfx (n + 1) = ports_loop pfx n ++ port_block pfx n ++ " | " := by
  apply String.ext
  simp [ports_loop, port_block, String.data_append, List.append_assoc]

theorem port_cells_zero (pfx : String) : port_cells pfx 0 = "" := rfl

theorem port_cells_succ (pfx : String) (n : Nat) :
    port_cells pfx (n + 1) = ports_loop pfx n ++ port_block pfx n := by
  have hdata : (ports_loop pfx (n + 1)).data =
      ((ports_loop pfx n).data ++ (port_block pfx n).data) ++ [' ', '|', ' '] := by
    rw [ports_loop_succ]
    simp [String.data_append]
  have hne : (ports_loop pfx (n + 1)).data.isEmpty = false := by
    rw [hdata]
    simp
  have hlen : (ports_loop pfx (n + 1)).length - 3 =
      ((ports_loop pfx n).data ++ (port_block pfx n).data).length := by
    have : (ports_loop pfx (n + 1)).length =
        ((ports_loop pfx n).data ++ (port_block pfx n).data).length + 3 := by
      show (ports_loop pfx (n + 1)).data.length = _
      rw [hdata]
      simp
      omega
    omega
  apply String.ext
  simp only [port_cells, hne, Bool.false_eq_true, if_false]
  rw [hlen, hdata, List.take_left, String.data_append]

theorem ports_loop_eq_cells_sep (pfx : String) (n : Nat) :
    ports_loop pfx (n + 1) = port_cells pfx (n + 1) ++ " | " := by
  rw [ports_loop_succ, port_cells_succ]

theorem port_cells_one (pfx : String) : port_cells pfx 1 = port_block pfx 0 := by
  rw [port_cells_succ]
  apply String.ext
  simp [ports_loop, String.data_append]

theorem port_cells_succ_succ (pfx : String) (n : Nat) :
    port_cells pfx (n + 2) =
      port_cells pfx (n + 1) ++ " | " ++ port_block pfx (n + 1) := by
  rw [port_cells_succ pfx (n + 1), ports_loop_eq_cells_sep]

theorem port_cells_succ_ne_empty (pfx : String) (n : Nat) :
    (port_cells pfx (n + 1)).data.isEmpty = false := by
  rw [port_cells_succ]
  have : (port_block pfx n).data =
      '<' :: (pfx.data ++ (Nat.repr n).data ++ ['>']) := by
    simp [port_block, String.data_append]
  simp [String.data_append, this]

theorem record_label_zero_zero (label : String) :
    record_label label 0 0 = "\"" ++ label ++ "\"" := rfl

theorem record_label_zero_succ (label : String) (n : Nat) :
    record_label label 0 (n + 1) =
      "\"\x7b " ++ label ++ " | \x7b " ++ port_cells ("t_") (n + 1) ++
        " \x7d \x7d\"" := by
  simp [record_label, port_cells_zero, port_cells_succ_ne_empty]

theorem record_label_succ_zero (label : String) (n : Nat) :
    record_label label (n + 1) 0 =
      "\"\x7b \x7b " ++ port_cells ("s_") (n + 1) ++ " \x7d | " ++ label ++
        " \x7d\"" := by
  simp [record_label, port_cells_zero, port_cells_succ_ne_empty]

theorem record_label_succ_succ (label : String) (n m : Nat) :
    record_label label (n + 1) (m + 1) =
      "\"\x7b \x7b " ++ port_cells ("s_") (n + 1) ++ " \x7d | " ++ label ++
        " | \x7b " ++ port_cells ("t_") (m + 1) ++ " \x7d \x7d\"" := by
  simp [record_label, port_cells_succ_ne_empty]

theorem quotient_loop_length :
    ∀ (l seen : List (Nat × Nat)),
      (quotient_loop l seen).length =
        ((l.map canonical_pair).toFinset \ seen.toFinset).card := by
  intro l
  induction l with
  | nil => intro seen; simp [quotient_loop]
  | cons p rest ih =>
    intro seen
    by_cases h : canonical_pair p ∈ seen
    · have hf : canonical_pair p ∈ seen.toFinset := by simpa using h
      simp only [quotient_loop, if_pos h]
      rw [ih seen, List.map_cons, List.toFinset_cons,
        Finset.insert_sdiff_of_mem _ hf]
    · have hf : canonical_pair p ∉ seen.toFinset := by simpa using h
      simp only [quotient_loop, if_neg h, List.length_cons, List.map_cons,
        List.toFinset_cons]
      rw [ih (canonical_pair p :: seen)]
      simp only [List.toFinset_cons]
      have hins : insert (canonical_pair p) (rest.map canonical_pair).toFinset
            \ seen.toFinset =
          insert (canonical_pair p) ((rest.map canonical_pair).toFinset \
            insert (canonical_pair p) seen.toFinset) := by
        ext x
        by_cases hxk : x = canonical_pair p
        · subst hxk
          simp [hf]
        · simp [hxk]
      rw [hins, Finset.card_insert_of_not_mem (by simp)]

theorem quotient_loop_mem :
    ∀ (l seen : List (Nat × Nat)) (s : Stmt), s ∈ quotient_loop l seen →
      ∃ p, p ∈ l ∧ s = quotient_edge_stmt p.1 p.2 := by
  intro l
  induction l with
  | nil => intro seen s hs; simp [quotient_loop] at hs
  | cons p rest ih =>
    intro seen s hs
    by_cases h : canonical_pair p ∈ seen
    · simp only [quotient_loop, if_pos h] at hs
      obtain ⟨q, hq, hsq⟩ := ih seen s hs
      exact ⟨q, List.mem_cons_of_mem _ hq, hsq⟩
    · simp only [quotient_loop, if_neg h] at hs
      rcases List.mem_cons.mp hs with h1 | h1
      · exact ⟨p, List.mem_cons_self _ _, h1⟩
      · obtain ⟨q, hq, hsq⟩ := ih _ s h1
        exact ⟨q, List.mem_cons_of_mem _ hq, hsq⟩

theorem zip_take_min :
    ∀ (l : List α) (r : List β),
      l.zip r =
        (l.take (min l.length r.length)).zip (r.take (min l.length r.length)) := by
  intro l
  induction l with
  | nil => intro r; simp
  | cons x rest ih =>
    intro r
    cases r with
    | nil => simp
    | cons y rrest =>
      simp only [List.length_cons, Nat.succ_min_succ, List.take_succ_cons,
        List.zip_cons_cons]
      rw [← ih rrest]

/-- A hypergraph with no nodes or hyperedges and the given quotient
sequences, used as concrete input for the quotient generator. -/
def quotient_only_graph (lefts rights : List Nat) : OpenHypergraph Unit Unit :=
  { hypergraph :=
      { nodes := [], edges := [], adjacency := [], quotient := (lefts, rights) },
    sources := [], targets := [] }

/-- Membership test for an attribute key among a statement's attributes. -/
def stmt_mentions_attr_key (k : String) : Stmt → Bool
  | Stmt.Node n => n.attributes.any (fun a => a.key == Id.Plain k)
  | Stmt.Attribute a => a.key == Id.Plain k
  | Stmt.Edge e => e.attributes.any (fun a => a.key == Id.Plain k)

/-! Label-escaping vocabulary and lemmas. -/

/-- The seven structurally significant characters of the record-label
syntax. -/
def special_char (c : Char) : Bool :=
  (c == '\\') || (c == '"') || (c == '\x7b') || (c == '\x7d') ||
    (c == '|') || (c == '<') || (c == '>')

/-- A character list in which every occurrence of a structurally
significant character is consumed by an immediately preceding escaping
backslash. -/
inductive WellEscaped : List Char → Prop where
  | nil : WellEscaped []
  | esc (c : Char) (rest : List Char) :
      WellEscaped rest → WellEscaped ('\\' :: c :: rest)
  | plain (c : Char) (rest : List Char) :
      special_char c = false → WellEscaped rest → WellEscaped (c :: rest)

theorem escape_char_special (c : Char) (h : special_char c = true) :
    escape_char c = ['\\', c] := by
  simp only [special_char, Bool.or_eq_true, beq_iff_eq] at h
  rcases h with ((((((h | h) | h) | h) | h) | h) | h) <;> subst h <;> rfl

theorem escape_char_plain (c : Char) (h : special_char c = false) :
    escape_char c = [c] := by
  unfold escape_char
  split <;> simp_all [special_char]

theorem escape_char_eq_ite (c : Char) :
    escape_char c = if special_char c then ['\\', c] else [c] := by
  by_cases h : special_char c
  · rw [escape_char_special c h, if_pos h]
  · rw [escape_char_plain c (by simpa using h), if_neg h]

theorem wellEscaped_flatten_escape :
    ∀ (l : List Char), WellEscaped (List.flatten (l.map escape_char)) := by
  intro l
  induction l with
  | nil => exact WellEscaped.nil
  | cons c rest ih =>
    simp only [List.map_cons, List.flatten_cons]
    by_cases h : special_char c
    · rw [escape_char_special c h]
      exact WellEscaped.esc c _ ih
    · rw [escape_char_plain c (by simpa using h)]
      exact WellEscaped.plain c _ (by simpa using h) ih

theorem flatten_escape_of_clean :
    ∀ (l : List Char), (∀ c ∈ l, special_char c = false) →
      List.flatten (l.map escape_char) = l := by
  intro l
  induction l with
  | nil => intro _; rfl
  | cons c rest ih =>
    intro h
    simp only [List.map_cons, List.flatten_cons]
    rw [escape_char_plain c (h c (List.mem_cons_self _ _)),
      ih (fun x hx => h x (List.mem_cons_of_mem _ hx))]
    rfl

/-! Wiring-generator lemmas. -/

/-- Number of wiring statements a hyperedge contributes. -/
def hyperedge_arity (he : Hyperedge) : Nat :=
  he.sources.length + he.targets.length

/-- Number of wiring statements contributed by the hyperedges before
index i. -/
def conn_offset (adj : List Hyperedge) (i : Nat) : Nat :=
  ((adj.take i).map hyperedge_arity).sum

theorem conn_stmts_loop_length :
    ∀ (adj : List Hyperedge) (i0 : Nat),
      (conn_stmts_loop i0 adj).length = (adj.map hyperedge_arity).sum := by
  intro adj
  induction adj with
  | nil => intro i0; rfl
  | cons he rest ih =>
    intro i0
    simp [conn_stmts_loop, enumerate_map_length, hyperedge_arity, ih]
    omega

theorem conn_stmts_loop_src :
    ∀ (adj : List Hyperedge) (i0 i : Nat) (he : Hyperedge),
      adj[i]? = some he → ∀ (k n : Nat), he.sources[k]? = some n →
        (conn_stmts_loop i0 adj)[conn_offset adj i + k]? =
          some (source_connection_stmt (i0 + i) k n) := by
  intro adj
  induction adj with
  | nil => intro i0 i he hadj; simp at hadj
  | cons he0 rest ih =>
    intro i0 i he hadj k n hk
    cases i with
    | zero =>
      rw [List.getElem?_cons_zero] at hadj
      obtain rfl : he0 = he := by injection hadj
      have hklen : k < he0.sources.length := by
        rw [List.getElem?_eq_some] at hk
        exact hk.1
      have hoff : conn_offset (he0 :: rest) 0 = 0 := rfl
      rw [hoff, Nat.zero_add]
      show ((enumerate_map (source_connection_stmt i0) 0 he0.sources ++
          enumerate_map (target_connection_stmt i0) 0 he0.targets) ++
          conn_stmts_loop (i0 + 1) rest)[k]? = _
      rw [List.getElem?_append_left
          (by rw [List.length_append, enumerate_map_length]; omega),
        List.getElem?_append_left (by rw [enumerate_map_length]; omega),
        enumerate_map_getElem?, hk]
      simp
    | succ i' =>
      rw [List.getElem?_cons_succ] at hadj
      have hoff : conn_offset (he0 :: rest) (i' + 1) =
          hyperedge_arity he0 + conn_offset rest i' := by
        simp [conn_offset, List.take_succ_cons, hyperedge_arity]
      rw [hoff]
      show ((enumerate_map (source_connection_stmt i0) 0 he0.sources ++
          enumerate_map (target_connection_stmt i0) 0 he0.targets) ++
          conn_stmts_loop (i0 + 1) rest)[
            hyperedge_arity he0 + conn_offset rest i' + k]? = _
      have hlen : (enumerate_map (source_connection_stmt i0) 0 he0.sources ++
          enumerate_map (target_connection_stmt i0) 0 he0.targets).length =
          hyperedge_arity he0 := by
        rw [List.length_append, enumerate_map_length, enumerate_map_length]
        rfl
      rw [List.getElem?_append_right (by omega), hlen]
      have harith : hyperedge_arity he0 + conn_offset rest i' + k -
          hyperedge_arity he0 = conn_offset rest i' + k := by omega
      rw [harith, ih (i0 + 1) i' he hadj k n hk]
      have : i0 + 1 + i' = i0 + (i' + 1) := by omega
      rw [this]

theorem conn_stmts_loop_tgt :
    ∀ (adj : List Hyperedge) (i0 i : Nat) (he : Hyperedge),
      adj[i]? = some he → ∀ (k n : Nat), he.targets[k]? = some n →
        (conn_stmts_loop i0 adj)[conn_offset adj i + he.sources.length + k]? =
          some (target_connection_stmt (i0 + i) k n) := by
  intro adj
  induction adj with
  | nil => intro i0 i he hadj; simp at hadj
  | cons he0 rest ih =>
    intro i0 i he hadj k n hk
    cases i with
    | zero =>
      rw [List.getElem?_cons_zero] at hadj
      obtain rfl : he0 = he := by injection hadj
      have hklen : k < he0.targets.length := by
        rw [List.getElem?_eq_some] at hk
        exact hk.1
      have hoff : conn_offset (he0 :: rest) 0 = 0 := rfl
      rw [hoff, Nat.zero_add]
      show ((enumerate_map (source_connection_stmt i0) 0 he0.sources ++
          enumerate_map (target_connection_stmt i0) 0 he0.targets) ++
          conn_stmts_loop (i0 + 1) rest)[he0.sources.length + k]? = _
      rw [List.getElem?_append_left
          (by rw [List.length_append, enumerate_map_length,
            enumerate_map_length]; omega),
        List.getElem?_append_right (by rw [enumerate_map_length]; omega)]
      rw [enumerate_map_length]
      have harith : he0.sources.length + k - he0.sources.length = k := by omega
      rw [harith, enumerate_map_getElem?, hk]
      simp
    | succ i' =>
      rw [List.getElem?_cons_succ] at hadj
      have hoff : conn_offset (he0 :: rest) (i' + 1) =
          hyperedge_arity he0 + conn_offset rest i' := by
        simp [conn_offset, List.take_succ_cons, hyperedge_arity]
      rw [hoff]
      show ((enumerate_map (source_connection_stmt i0) 0 he0.sources ++
          enumerate_map (target_connection_stmt i0) 0 he0.targets) ++
          conn_stmts_loop (i0 + 1) rest)[
            hyperedge_arity he0 + conn_offset rest i' + he.sources.length + k]? = _
      have hlen : (enumerate_map (source_connection_stmt i0) 0 he0.sources ++
          enumerate_map (target_connection_stmt i0) 0 he0.targets).length =
          hyperedge_arity he0 := by
        rw [List.length_append, enumerate_map_length, enumerate_map_length]
        rfl
      rw [List.getElem?_append_right (by omega), hlen]
      have harith : hyperedge_arity he0 + conn_offset rest i' +
          he.sources.length + k - hyperedge_arity he0 =
          conn_offset rest i' + he.sources.length + k := by omega
      rw [harith, ih (i0 + 1) i' he hadj k n hk]
      have : i0 + 1 + i' = i0 + (i' + 1) := by omega
      rw [this]

/-! Hyperedge-record-generator lemma. -/

theorem edge_stmts_loop_getElem? (el : A → String) :
    ∀ (as : List A) (hs : List Hyperedge) (i0 i : Nat) (a : A)
      (he : Hyperedge), as[i]? = some a → hs[i]? = some he →
      (edge_stmts_loop el i0 as hs)[i]? =
        some (edge_stmt (i0 + i) (escape_dot_label (el a)) he) := by
  intro as
  induction as with
  | nil => intro hs i0 i a he ha; simp at ha
  | cons a0 arest ih =>
    intro hs i0 i a he ha hh
    cases hs with
    | nil => simp at hh
    | cons he0 hrest =>
      cases i with
      | zero =>
        rw [List.getElem?_cons_zero] at ha hh
        obtain rfl : a0 = a := by injection ha
        obtain rfl : he0 = he := by injection hh
        simp [edge_stmts_loop]
      | succ i' =>
        rw [List.getElem?_cons_succ] at ha hh
        show (edge_stmt i0 (escape_dot_label (el a0)) he0 ::
          edge_stmts_loop el (i0 + 1) arest hrest)[i' + 1]? = _
        rw [List.getElem?_cons_succ, ih hrest (i0 + 1) i' a he ha hh]
        have : i0 + 1 + i' = i0 + (i' + 1) := by omega
        rw [this]

/-! Interface-generator lemmas. -/

/-- Does a statement declare a vertex with the given plain name? -/
def stmt_declares_node (name : String) : Stmt → Bool
  | Stmt.Node n => n.id.id == Id.Plain name
  | _ => false

theorem enum_src_iface_edges_declare_false (name : String) :
    ∀ (j : Nat) (l : List Nat),
      (enumerate_map source_interface_edge j l).any
        (stmt_declares_node name) = false := by
  intro j l
  induction l generalizing j with
  | nil => rfl
  | cons n rest ih =>
    simp only [enumerate_map, List.any_cons, ih]
    rfl

theorem enum_tgt_iface_edges_declare_false (name : String) :
    ∀ (j : Nat) (l : List Nat),
      (enumerate_map target_interface_edge j l).any
        (stmt_declares_node name) = false := by
  intro j l
  induction l generalizing j with
  | nil => rfl
  | cons n rest ih =>
    simp only [enumerate_map, List.any_cons, ih]
    rfl

/-- Length of the sources block of the interface generator. -/
def sources_block_length (g : OpenHypergraph O A) : Nat :=
  if g.sources.isEmpty then 0 else g.sources.length + 1

/-- A hypergraph with no nodes or hyperedges and the given interface,
used as concrete input for the interface generator. -/
def interface_only_graph (ss ts : List Nat) : OpenHypergraph Unit Unit :=
  { hypergraph :=
      { nodes := [], edges := [], adjacency := [], quotient := ([], []) },
    sources := ss, targets := ts }

/-! Document-assembly lemmas. -/

theorem foldl_add_stmt (l : List Stmt) :
    ∀ (i : Id) (b : Bool) (acc : List Stmt),
      l.foldl Graph.add_stmt (Graph.DiGraph i b acc) =
        Graph.DiGraph i b (acc ++ l) := by
  induction l with
  | nil => intro i b acc; simp
  | cons s rest ih =>
    intro i b acc
    rw [List.foldl_cons]
    show rest.foldl Graph.add_stmt (Graph.DiGraph i b (acc ++ [s])) = _
    rw [ih i b (acc ++ [s])]
    simp

/-- The preamble: rankdir, bgcolor, and the default node and edge
attribute statements, in the order generate_dot_with adds them. -/
def preamble_stmts (opts : Options O A) : List Stmt :=
  [ Stmt.Attribute
      ⟨Id.Plain ("rankdir"), Id.Plain (opts.orientation.toString)⟩,
    Stmt.Attribute
      ⟨Id.Plain ("bgcolor"), Id.Plain ("\"" ++ opts.theme.bgcolor ++ "\"")⟩,
    default_node_attrs_stmt opts.theme,
    default_edge_attrs_stmt opts.theme ]

theorem generate_dot_with_stmts (g : OpenHypergraph O A)
    (opts : Options O A) :
    (generate_dot_with g opts).stmts =
      preamble_stmts opts ++ generate_node_stmts g opts ++
        generate_edge_stmts g opts ++ generate_interface_stmts g ++
        generate_connection_stmts g ++ generate_quotient_stmts g := by
  simp only [generate_dot_with, Graph.add_stmt, foldl_add_stmt, Graph.stmts,
    preamble_stmts]
  simp [List.append_assoc]

/-! Claim theorems. -/

/-- Claim C1: the quotient generator emits exactly one connection statement
per distinct unordered pair of node indices occurring in the quotient
relation (a pair whose canonical form was already seen, including in
reverse orientation, produces no statement); in particular the quotient
input [(0,1), (1,0), (2,3)] yields exactly two connections. -/
theorem quotient_one_stmt_per_unordered_pair :
    (∀ {O A : Type} (g : OpenHypergraph O A),
      (generate_quotient_stmts g).length =
        ((g.hypergraph.quotient.1.zip g.hypergraph.quotient.2).map
          canonical_pair).toFinset.card) ∧
    generate_quotient_stmts (quotient_only_graph [0, 1, 2] [1, 0, 3]) =
      [quotient_edge_stmt 0 1, quotient_edge_stmt 2 3] := by
  constructor
  · intro O A g
    rw [generate_quotient_stmts, quotient_loop_length]
    simp
  · rfl

/-- Counterexample to claim C2: on the quotient pair (1, 0) the emitted
connection runs from vertex n_1 to vertex n_0 (the input orientation, not
the canonical (min, max) order), and no attribute with key "constraint"
is attached, so the layout constraint is not disabled. -/
theorem quotient_stmt_c2_counterexample :
    generate_quotient_stmts (quotient_only_graph [1] [0]) =
        [quotient_edge_stmt 1 0] ∧
      quotient_edge_stmt 1 0 ≠ quotient_edge_stmt 0 1 ∧
      (generate_quotient_stmts (quotient_only_graph [1] [0])).any
        (stmt_mentions_attr_key ("constraint")) = false := by
  refine ⟨rfl, by decide, rfl⟩

/-- Claim C2 as amended: every connection statement the quotient generator
emits comes from a pair (l, r) of the zipped quotient input and runs from
vertex n_l to vertex n_r in the input orientation, styled dotted with
direction none (rendered undirected) and with no further attributes — in
particular no layout-constraint attribute. -/
theorem quotient_stmt_shape_c2_amended :
    (∀ {O A : Type} (g : OpenHypergraph O A) (s : Stmt),
      s ∈ generate_quotient_stmts g →
      ∃ p, p ∈ g.hypergraph.quotient.1.zip g.hypergraph.quotient.2 ∧
        s = quotient_edge_stmt p.1 p.2) ∧
    (∀ l r : Nat,
      stmt_mentions_attr_key ("constraint") (quotient_edge_stmt l r) = false) := by
  constructor
  · intro O A g s hs
    exact quotient_loop_mem _ _ s hs
  · intro l r
    rfl

/-- Witness for the amended claim C2 at a concrete input. -/
theorem quotient_stmt_shape_c2_amended_witness :
    ∃ p, p ∈ (quotient_only_graph [0] [1]).hypergraph.quotient.1.zip
        (quotient_only_graph [0] [1]).hypergraph.quotient.2 ∧
      quotient_edge_stmt 0 1 = quotient_edge_stmt p.1 p.2 :=
  quotient_stmt_shape_c2_amended.1 (quotient_only_graph [0] [1])
    (quotient_edge_stmt 0 1) (by decide)

/-- Claim C6: escaping is total (it is a function on all strings); each
occurrence of one of the seven significant characters is individually
backslash-escaped and every other character passes through unchanged; the
output has no unescaped occurrence of those characters; and on a string
free of them the function is the identity. -/
theorem escape_dot_label_c6 :
    (∀ s : String, (escape_dot_label s).data =
      (s.data.map
        (fun c => if special_char c then ['\\', c] else [c])).flatten) ∧
    (∀ s : String, WellEscaped (escape_dot_label s).data) ∧
    (∀ s : String, (∀ c ∈ s.data, special_char c = false) →
      escape_dot_label s = s) := by
  refine ⟨?_, ?_, ?_⟩
  · intro s
    have hf : escape_char =
        fun c => if special_char c then ['\\', c] else [c] :=
      funext escape_char_eq_ite
    show (s.data.map escape_char).flatten = _
    rw [hf]
  · intro s
    exact wellEscaped_flatten_escape s.data
  · intro s h
    exact String.ext (flatten_escape_of_clean s.data h)

/-- Witness for claim C6 at a concrete clean string. -/
theorem escape_dot_label_c6_witness : escape_dot_label ("ab") = "ab" :=
  escape_dot_label_c6.2.2 ("ab") (by decide)

/-- Claim C10: the quotient generator is total on parallel sequences of
unequal length; it processes exactly the first min(len, len) zipped pairs,
ignoring the unmatched tail — truncating both sequences to that length
does not change the output, and a concrete ragged input is rendered. -/
theorem quotient_total_min_zip_c10 :
    (∀ {O A : Type} (g : OpenHypergraph O A),
      generate_quotient_stmts g =
        generate_quotient_stmts
          { g with hypergraph :=
              { g.hypergraph with quotient :=
                  (g.hypergraph.quotient.1.take
                     (min g.hypergraph.quotient.1.length
                       g.hypergraph.quotient.2.length),
                   g.hypergraph.quotient.2.take
                     (min g.hypergraph.quotient.1.length
                       g.hypergraph.quotient.2.length)) } }) ∧
    generate_quotient_stmts (quotient_only_graph [0, 1, 5] [1, 0]) =
      [quotient_edge_stmt 0 1] := by
  constructor
  · intro O A g
    show quotient_loop
        (g.hypergraph.quotient.1.zip g.hypergraph.quotient.2) [] =
      quotient_loop
        ((g.hypergraph.quotient.1.take
            (min g.hypergraph.quotient.1.length
              g.hypergraph.quotient.2.length)).zip
          (g.hypergraph.quotient.2.take
            (min g.hypergraph.quotient.1.length
              g.hypergraph.quotient.2.length))) []
    rw [← zip_take_min]
  · rfl

/-- Claim C8: rendering is deterministic — equal hypergraphs and equal
configurations produce equal documents. -/
theorem rendering_deterministic_c8 :
    ∀ {O A : Type} (g1 g2 : OpenHypergraph O A) (o1 o2 : Options O A),
      g1 = g2 → o1 = o2 → generate_dot_with g1 o1 = generate_dot_with g2 o2 := by
  intro O A g1 g2 o1 o2 hg ho
  subst hg
  subst ho
  rfl

/-- A concrete hypergraph: one node, one hyperedge reading node 0, and
interface sources [0]. -/
def c7_graph : OpenHypergraph Unit Unit :=
  { hypergraph :=
      { nodes := [()], edges := [()],
        adjacency := [{ sources := [0], targets := [] }],
        quotient := ([], []) },
    sources := [0], targets := [] }

/-- A concrete configuration with constant label formatters. -/
def concrete_opts : Options Unit Unit :=
  { orientation := Orientation.TB, theme := dark_theme,
    node_label := fun _ => "x", edge_label := fun _ => "f" }

/-- Witness for claim C8 at a concrete input. -/
theorem rendering_deterministic_c8_witness :
    generate_dot_with c7_graph concrete_opts =
      generate_dot_with c7_graph concrete_opts :=
  rendering_deterministic_c8 c7_graph c7_graph concrete_opts concrete_opts
    rfl rfl

/-- Claim C3: each hyperedge i yields a record vertex named e_i with shape
record whose label follows the three-way degenerate-case rule, the port
cells holding one named port per slot, slots separated by the field
divider. -/
theorem hyperedge_record_c3 :
    (∀ {O A : Type} (g : OpenHypergraph O A) (opts : Options O A) (i : Nat)
        (a : A) (he : Hyperedge),
        g.hypergraph.edges[i]? = some a →
        g.hypergraph.adjacency[i]? = some he →
        (generate_edge_stmts g opts)[i]? =
          some (edge_stmt i (escape_dot_label (opts.edge_label a)) he)) ∧
    (∀ label : String, record_label label 0 0 = "\"" ++ label ++ "\"") ∧
    (∀ (label : String) (m : Nat), record_label label 0 (m + 1) =
      "\"\x7b " ++ label ++ " | \x7b " ++ port_cells ("t_") (m + 1) ++
        " \x7d \x7d\"") ∧
    (∀ (label : String) (n : Nat), record_label label (n + 1) 0 =
      "\"\x7b \x7b " ++ port_cells ("s_") (n + 1) ++ " \x7d | " ++ label ++
        " \x7d\"") ∧
    (∀ (label : String) (n m : Nat), record_label label (n + 1) (m + 1) =
      "\"\x7b \x7b " ++ port_cells ("s_") (n + 1) ++ " \x7d | " ++ label ++
        " | \x7b " ++ port_cells ("t_") (m + 1) ++ " \x7d \x7d\"") ∧
    (∀ pfx : String, port_cells pfx 1 = port_block pfx 0) ∧
    (∀ (pfx : String) (n : Nat), port_cells pfx (n + 2) =
      port_cells pfx (n + 1) ++ " | " ++ port_block pfx (n + 1)) := by
  refine ⟨?_, record_label_zero_zero, record_label_zero_succ,
    record_label_succ_zero, record_label_succ_succ, port_cells_one,
    port_cells_succ_succ⟩
  intro O A g opts i a he ha hh
  have h := edge_stmts_loop_getElem? opts.edge_label g.hypergraph.edges
    g.hypergraph.adjacency 0 i a he ha hh
  simpa using h

/-- A hypergraph with one hyperedge having zero sources and two targets. -/
def c3_graph : OpenHypergraph Unit Unit :=
  { hypergraph :=
      { nodes := [(), ()], edges := [()],
        adjacency := [{ sources := [], targets := [0, 1] }],
        quotient := ([], []) },
    sources := [], targets := [] }

/-- Witness for claim C3 at a concrete input. -/
theorem hyperedge_record_c3_witness :
    (generate_edge_stmts c3_graph concrete_opts)[0]? =
      some (edge_stmt 0 (escape_dot_label ("f"))
        { sources := [], targets := [0, 1] }) :=
  hyperedge_record_c3.1 c3_graph concrete_opts 0 ()
    { sources := [], targets := [0, 1] } rfl rfl

/-- Claim C4: per hyperedge i, source slot k holding node n yields a
directed connection from n_n to port s_k of e_i at document position
offset(i) + k, target slot k one from port t_k of e_i to n_n at position
offset(i) + |sources| + k; the total count is the sum of the arities, so
emission is per slot with no deduplication. -/
theorem wiring_per_slot_c4 :
    (∀ {O A : Type} (g : OpenHypergraph O A),
      (generate_connection_stmts g).length =
        (g.hypergraph.adjacency.map hyperedge_arity).sum) ∧
    (∀ {O A : Type} (g : OpenHypergraph O A) (i : Nat) (he : Hyperedge),
      g.hypergraph.adjacency[i]? = some he →
      (∀ k n : Nat, he.sources[k]? = some n →
        (generate_connection_stmts g)[
            conn_offset g.hypergraph.adjacency i + k]? =
          some (source_connection_stmt i k n)) ∧
      (∀ k n : Nat, he.targets[k]? = some n →
        (generate_connection_stmts g)[
            conn_offset g.hypergraph.adjacency i + he.sources.length + k]? =
          some (target_connection_stmt i k n))) := by
  constructor
  · intro O A g
    exact conn_stmts_loop_length g.hypergraph.adjacency 0
  · intro O A g i he hadj
    constructor
    · intro k n hk
      have h := conn_stmts_loop_src g.hypergraph.adjacency 0 i he hadj k n hk
      simpa using h
    · intro k n hk
      have h := conn_stmts_loop_tgt g.hypergraph.adjacency 0 i he hadj k n hk
      simpa using h

/-- A hypergraph with one hyperedge reading node 5 in two distinct source
slots and writing node 7. -/
def c4_graph : OpenHypergraph Unit Unit :=
  { hypergraph :=
      { nodes := [], edges := [],
        adjacency := [{ sources := [5, 5], targets := [7] }],
        quotient := ([], []) },
    sources := [], targets := [] }

/-- Witness for claim C4: the repeated source node yields two separate
connections, one per slot, followed by the target connection. -/
theorem wiring_per_slot_c4_witness :
    (generate_connection_stmts c4_graph)[0]? =
        some (source_connection_stmt 0 0 5) ∧
      (generate_connection_stmts c4_graph)[1]? =
        some (source_connection_stmt 0 1 5) ∧
      (generate_connection_stmts c4_graph)[2]? =
        some (target_connection_stmt 0 0 7) := by
  have h := wiring_per_slot_c4.2 c4_graph 0
    { sources := [5, 5], targets := [7] } rfl
  exact ⟨h.1 0 5 rfl, h.1 1 5 rfl, h.2 0 7 rfl⟩

/-- Claim C5: the sources pseudo-vertex is emitted if and only if the
interface source sequence is non-empty, at position 0, followed by one
dashed connection per interface slot in interface order; symmetrically for
targets after the sources block; and interface order is preserved, not
sorted (sources [3, 1] give p_0 to n_3 then p_1 to n_1). -/
theorem interface_stmts_c5 :
    (∀ {O A : Type} (g : OpenHypergraph O A),
      ((generate_interface_stmts g).any
          (stmt_declares_node ("sources")) = true ↔ g.sources ≠ []) ∧
      ((generate_interface_stmts g).any
          (stmt_declares_node ("targets")) = true ↔ g.targets ≠ [])) ∧
    (∀ {O A : Type} (g : OpenHypergraph O A), g.sources ≠ [] →
      (generate_interface_stmts g)[0]? =
        some (sources_node_stmt g.sources.length)) ∧
    (∀ {O A : Type} (g : OpenHypergraph O A) (i n : Nat),
      g.sources[i]? = some n →
      (generate_interface_stmts g)[i + 1]? =
        some (source_interface_edge i n)) ∧
    (∀ {O A : Type} (g : OpenHypergraph O A), g.targets ≠ [] →
      (generate_interface_stmts g)[sources_block_length g]? =
        some (targets_node_stmt g.targets.length)) ∧
    (∀ {O A : Type} (g : OpenHypergraph O A) (i n : Nat),
      g.targets[i]? = some n →
      (generate_interface_stmts g)[sources_block_length g + i + 1]? =
        some (target_interface_edge i n)) ∧
    generate_interface_stmts (interface_only_graph [3, 1] []) =
      [sources_node_stmt 2, source_interface_edge 0 3,
        source_interface_edge 1 1] := by
  refine ⟨?_, ?_, ?_, ?_, ?_, rfl⟩
  · intro O A g
    constructor
    · by_cases hs : g.sources = []
      · rw [generate_interface_stmts, if_pos (by simp [hs]), List.nil_append]
        by_cases ht : g.targets = []
        · rw [if_pos (by simp [ht])]
          simp [hs]
        · rw [if_neg (by simp [List.isEmpty_iff, ht]), List.any_cons]
          have h1 : stmt_declares_node ("sources")
              (targets_node_stmt g.targets.length) = false := rfl
          rw [h1, enum_tgt_iface_edges_declare_false]
          simp [hs]
      · rw [generate_interface_stmts,
          if_neg (by simp [List.isEmpty_iff, hs]), List.cons_append,
          List.any_cons]
        have h1 : stmt_declares_node ("sources")
            (sources_node_stmt g.sources.length) = true := rfl
        rw [h1]
        simp [hs]
    · have hsrcf : stmt_declares_node ("targets")
          (sources_node_stmt g.sources.length) = false := rfl
      have htgtt : stmt_declares_node ("targets")
          (targets_node_stmt g.targets.length) = true := rfl
      by_cases hs : g.sources = [] <;> by_cases ht : g.targets = []
      · rw [generate_interface_stmts, if_pos (by simp [hs]),
          if_pos (by simp [ht])]
        simp [ht]
      · rw [generate_interface_stmts, if_pos (by simp [hs]),
          if_neg (by simp [List.isEmpty_iff, ht]), List.nil_append,
          List.any_cons, htgtt]
        simp [ht]
      · rw [generate_interface_stmts,
          if_neg (by simp [List.isEmpty_iff, hs]), if_pos (by simp [ht]),
          List.append_nil, List.any_cons, hsrcf,
          enum_src_iface_edges_declare_false]
        simp [ht]
      · rw [generate_interface_stmts,
          if_neg (by simp [List.isEmpty_iff, hs]),
          if_neg (by simp [List.isEmpty_iff, ht]), List.cons_append,
          List.any_cons, hsrcf, List.any_append, List.any_cons, htgtt,
          enum_src_iface_edges_declare_false]
        simp [ht]
  · intro O A g hs
    rw [generate_interface_stmts, if_neg (by simp [List.isEmpty_iff, hs]),
      List.cons_append, List.getElem?_cons_zero]
  · intro O A g i n hi
    have hlen : i < g.sources.length := by
      rw [List.getElem?_eq_some] at hi
      exact hi.1
    have hs : ¬ g.sources.isEmpty = true := by
      simp only [List.isEmpty_iff]
      intro h
      rw [h] at hlen
      simp at hlen
    rw [generate_interface_stmts, if_neg hs, List.cons_append,
      List.getElem?_cons_succ,
      List.getElem?_append_left (by rw [enumerate_map_length]; omega),
      enumerate_map_getElem?, hi]
    simp
  · intro O A g ht
    have ht' : ¬ g.targets.isEmpty = true := by
      simp [List.isEmpty_iff, ht]
    by_cases hs : g.sources = []
    · have hsbl : sources_block_length g = 0 := by
        rw [sources_block_length, if_pos (by simp [hs])]
      rw [hsbl, generate_interface_stmts, if_pos (by simp [hs]),
        List.nil_append, if_neg ht', List.getElem?_cons_zero]
    · have hs' : ¬ g.sources.isEmpty = true := by
        simp [List.isEmpty_iff, hs]
      have hsbl : sources_block_length g = g.sources.length + 1 := by
        rw [sources_block_length, if_neg hs']
      have hblen : (sources_node_stmt g.sources.length ::
          enumerate_map source_interface_edge 0 g.sources).length =
          g.sources.length + 1 := by
        simp [enumerate_map_length]
      rw [hsbl, generate_interface_stmts, if_neg hs', if_neg ht',
        List.getElem?_append_right (by rw [hblen]), hblen]
      have h0 : g.sources.length + 1 - (g.sources.length + 1) = 0 := by omega
      rw [h0, List.getElem?_cons_zero]
  · intro O A g i n hi
    have hlen : i < g.targets.length := by
      rw [List.getElem?_eq_some] at hi
      exact hi.1
    have ht' : ¬ g.targets.isEmpty = true := by
      simp only [List.isEmpty_iff]
      intro h
      rw [h] at hlen
      simp at hlen
    by_cases hs : g.sources = []
    · have hsbl : sources_block_length g = 0 := by
        rw [sources_block_length, if_pos (by simp [hs])]
      rw [hsbl, generate_interface_stmts, if_pos (by simp [hs]),
        List.nil_append, if_neg ht']
      rw [Nat.zero_add, List.getElem?_cons_succ]
      rw [enumerate_map_getElem?, hi]
      simp
    · have hs' : ¬ g.sources.isEmpty = true := by
        simp [List.isEmpty_iff, hs]
      have hsbl : sources_block_length g = g.sources.length + 1 := by
        rw [sources_block_length, if_neg hs']
      have hblen : (sources_node_stmt g.sources.length ::
          enumerate_map source_interface_edge 0 g.sources).length =
          g.sources.length + 1 := by
        simp [enumerate_map_length]
      rw [hsbl, generate_interface_stmts, if_neg hs', if_neg ht',
        List.getElem?_append_right (by rw [hblen]; omega), hblen]
      have h0 : g.sources.length + 1 + i + 1 - (g.sources.length + 1) =
          i + 1 := by omega
      rw [h0, List.getElem?_cons_succ]
      rw [enumerate_map_getElem?, hi]
      simp

/-- Witness for claim C5 at a concrete input with sources [3, 1] and
targets [2]. -/
theorem interface_stmts_c5_witness :
    (generate_interface_stmts (interface_only_graph [3, 1] [2]))[0]? =
        some (sources_node_stmt 2) ∧
      (generate_interface_stmts (interface_only_graph [3, 1] [2]))[1]? =
        some (source_interface_edge 0 3) ∧
      (generate_interface_stmts (interface_only_graph [3, 1] [2]))[3]? =
        some (targets_node_stmt 1) ∧
      (generate_interface_stmts (interface_only_graph [3, 1] [2]))[4]? =
        some (target_interface_edge 0 2) :=
  ⟨interface_stmts_c5.2.1 (interface_only_graph [3, 1] [2]) (by decide),
    interface_stmts_c5.2.2.1 (interface_only_graph [3, 1] [2]) 0 3 rfl,
    interface_stmts_c5.2.2.2.1 (interface_only_graph [3, 1] [2]) (by decide),
    interface_stmts_c5.2.2.2.2.1 (interface_only_graph [3, 1] [2]) 0 2 rfl⟩

/-- Counterexample to claim C7: for a concrete hypergraph with a non-empty
interface and one wiring connection, the document statement list does not
equal the concatenation in the claimed order (preamble, nodes, hyperedges,
wiring, then interface and quotient) — the interface statements in fact
precede the wiring statements. -/
theorem pass_order_c7_counterexample :
    (generate_dot_with c7_graph concrete_opts).stmts ≠
      preamble_stmts concrete_opts ++
        generate_node_stmts c7_graph concrete_opts ++
        generate_edge_stmts c7_graph concrete_opts ++
        generate_connection_stmts c7_graph ++
        generate_interface_stmts c7_graph ++
        generate_quotient_stmts c7_graph := by
  decide

/-- Claim C7 as amended: the passes contribute in the fixed order preamble,
node statements, hyperedge record statements, interface statements, wiring
statements, then quotient statements; in particular every interface
pseudo-vertex statement appears before every wiring statement. -/
theorem pass_order_c7_amended :
    ∀ {O A : Type} (g : OpenHypergraph O A) (opts : Options O A),
      (generate_dot_with g opts).stmts =
        preamble_stmts opts ++ generate_node_stmts g opts ++
          generate_edge_stmts g opts ++ generate_interface_stmts g ++
          generate_connection_stmts g ++ generate_quotient_stmts g := by
  intro O A g opts
  exact generate_dot_with_stmts g opts

/-- Claim C9: the theme's orientation field is never read — configurations
differing only in theme.orientation render identically; the rankdir
attribute is determined solely by the top-level orientation; and both
built-in presets do set theme.orientation. -/
theorem theme_orientation_ignored_c9 :
    (∀ {O A : Type} (g : OpenHypergraph O A) (orient : Orientation)
        (t1 t2 : Theme) (nl : O → String) (el : A → String),
        t1.bgcolor = t2.bgcolor → t1.fontcolor = t2.fontcolor →
        t1.color = t2.color →
        generate_dot_with g
            { orientation := orient, theme := t1,
              node_label := nl, edge_label := el } =
          generate_dot_with g
            { orientation := orient, theme := t2,
              node_label := nl, edge_label := el }) ∧
    (∀ {O A : Type} (g : OpenHypergraph O A) (opts : Options O A),
      (generate_dot_with g opts).stmts[0]? =
        some (Stmt.Attribute
          ⟨Id.Plain ("rankdir"), Id.Plain (opts.orientation.toString)⟩)) ∧
    light_theme.orientation = Orientation.LR ∧
    dark_theme.orientation = Orientation.LR := by
  refine ⟨?_, ?_, rfl, rfl⟩
  · intro O A g orient t1 t2 nl el h1 h2 h3
    cases t1
    cases t2
    dsimp only at h1 h2 h3
    subst h1
    subst h2
    subst h3
    rfl
  · intro O A g opts
    rw [generate_dot_with_stmts]
    rfl

/-- Witness for claim C9: two configurations whose themes differ only in
the orientation field render the concrete hypergraph identically. -/
theorem theme_orientation_ignored_c9_witness :
    generate_dot_with c7_graph
        { orientation := Orientation.TB, theme := dark_theme,
          node_label := fun _ => "x", edge_label := fun _ => "f" } =
      generate_dot_with c7_graph
        { orientation := Orientation.TB,
          theme := { dark_theme with orientation := Orientation.TB },
          node_label := fun _ => "x", edge_label := fun _ => "f" } :=
  theme_orientation_ignored_c9.1 c7_graph Orientation.TB dark_theme
    { dark_theme with orientation := Orientation.TB }
    (fun _ => "x") (fun _ => "f") rfl rfl rfl

end OpenHypergraphsDot
